import Mathlib

/-!
Verification development for the watchparty fair-delivery core
(`apps/watchparty-server/lib/fair-delivery.js` and
`apps/watchparty-server/lib/direct-delivery.js`).

The JavaScript module is shallowly embedded here:
* module-level mutable state (the `fairClient` map, `headCache`, the
  `fairnessStats` counters) becomes the explicit record `FairState`;
* `fs.readSync` calls become oracle parameters — `Read` for the positional
  chunk reads of the scheduling loop (`.err` models a thrown exception) and
  an `Option (List Nat)` for the single head-cache build read;
* JavaScript numbers holding byte counts are modelled as `Nat`/`Int`
  (the code only ever stores integers in them), and the token bucket —
  which genuinely holds fractional values — as `ℚ` (exact arithmetic in
  place of floating point; every comparison the code performs on tokens is
  also clamped, so the invariants proved below are insensitive to rounding);
* HTTP responses are modelled by the `ServeResult` outcome type; `res.write`
  / `res.end` side effects on the sink are captured by `FairEvent`s and by
  the `resEnded` flag of a job.  Log lines (`systemLog` / `logTelemetry`)
  and per-client `metaRef` bookkeeping are observational only and are not
  modelled; the `fairnessStats` counters bumped by `serveRange` are.
* requests are modelled for the `GET` method (the `HEAD` early returns in
  the source send the same status/headers and skip the body).
-/

namespace Watchparty

/-- Validated configuration produced by `initFairDelivery` (fair-delivery.js
lines 145-156): the six `parsePositiveInt` parameters plus the
`FAIR_DELIVERY` enable flag. -/
structure FairConfig where
  maxRequestBytes : Nat
  chunkBytes : Nat
  rateCapBps : Nat
  contentBitrateBps : Nat
  hotCacheBytes : Nat
  maxAheadSec : Nat
  enabled : Bool
  deriving Repr, DecidableEq

/-- One admitted (possibly truncated) byte-range job, from the object literal
built in `serveRange` (line 198): `{ guid, start, end, current:start, ...,
len:end-start+1 }`.  `resEnded` embeds `job.res.writableEnded`; timing
fields (`enqueueTs`) and the log throttling fields are observational and
omitted. -/
structure DeliveryJob where
  guid : Option String
  start : Nat
  endPos : Nat
  current : Nat
  len : Nat
  resEnded : Bool
  deriving Repr, DecidableEq

/-- Per-client scheduling state, from `ensureFairClient` (line 78):
`{ queue:[], deficit:0, lastActiveTs:Date.now(), tokens:0,
lastRefill:Date.now() }`.  `deficit` is an integer number of bytes;
`tokens` is the (fractional) token-bucket level. -/
structure FairClient where
  queue : List DeliveryJob
  deficit : Int
  lastActiveTs : Nat
  tokens : ℚ
  lastRefill : Nat
  deriving Repr, DecidableEq

/-- The `fairnessStats` counter record (lines 35-46); `lastLogTs` is log
throttling only and is omitted. -/
structure FairnessStats where
  enqueued : Nat
  truncations : Nat
  completed : Nat
  aborted : Nat
  chunkServes : Nat
  cacheHits : Nat
  cacheMiss : Nat
  aheadDeferred : Nat
  rateLimited : Nat
  deriving Repr, DecidableEq

def zeroStats : FairnessStats := ⟨0, 0, 0, 0, 0, 0, 0, 0, 0⟩

/-- The module-level mutable state of fair-delivery.js: the `fairClient`
map together with its `fairOrder` insertion order (one association list,
in insertion order, models both), the `headCache` buffer (`none` models
`buf:null`; the stored `length` field always equals the buffer length and
is represented by `List.length`), and the `fairnessStats` counters. -/
structure FairState where
  clients : List (String × FairClient)
  headCache : Option (List Nat)
  stats : FairnessStats
  deriving Repr, DecidableEq

def initialFairState : FairState := ⟨[], none, zeroStats⟩

/-- Result of one positional `fs.readSync(fd, buf, 0, len, pos)` chunk read:
`ok n` is a return of `n` bytes (`0 ≤ n ≤ len` for the real syscall; theorems
that need the upper bound take it as a hypothesis on the oracle), `err`
models a thrown exception (open/read/close failure). -/
inductive ReadResult where
  | ok (bytesRead : Nat)
  | err
  deriving Repr, DecidableEq

/-- A positional read oracle: position and requested length to result. -/
def Read : Type := Nat → Nat → ReadResult

/-- The last playback broadcast snapshot consumed by the ahead gate
(`job.getBroadcast()` in line 110): `{ t, paused, ts }`. -/
structure BroadcastSnap where
  t : ℚ
  paused : Bool
  ts : Nat
  deriving Repr, DecidableEq

/-! ### Range header parsing and admission (lines 186-188 of fair-delivery.js,
lines 12-14 of direct-delivery.js)

Both files run `/bytes=(\d*)-(\d*)/.exec(range)` on the Range header.
`RangeHeaderView` is the view of a request after that regex: `absent` is a
request with no Range header, `malformed` a header the regex does not match
(so the code answers 416 with no Content-Range header), and
`matched m1 m2` a successful match — each capture group is a (possibly
empty) digit string, represented by its numeric value with `none` for the
empty capture.  `parseInt` of a non-empty digit string is that natural
number, so the source's `isNaN` tests can never fire on a matched header. -/

inductive RangeHeaderView where
  | absent
  | malformed
  | matched (m1 m2 : Option Nat)
  deriving Repr, DecidableEq

/-- Outcome of range validation, before any truncation. -/
inductive RangeDecision where
  | noRange
  | malformed416
  | unsat416
  | admitted (start endPos : Nat)
  deriving Repr, DecidableEq

/-- Range validation of the fair path, transliterated from fair-delivery.js
lines 186-188: default `start` 0 and `end` `total-1` for empty captures,
then `start>end || end>=total` rejects with a 416 carrying
`Content-Range: bytes */total`.  (For `total = 0` the source computes the
default `end` as `-1` and rejects via `start>end`; here `total-1 = 0` and it
rejects via `end >= total` — the same `unsat416` outcome.) -/
def parseRangeFair (total : Nat) : RangeHeaderView → RangeDecision
  | .absent => .noRange
  | .malformed => .malformed416
  | .matched m1 m2 =>
    let start := m1.getD 0
    let e := m2.getD (total - 1)
    if start > e || e ≥ total then .unsat416 else .admitted start e

/-- Range validation of the legacy path, transliterated from
direct-delivery.js lines 12-14 (textually the same computation as the fair
path's). -/
def parseRangeDirect (total : Nat) : RangeHeaderView → RangeDecision
  | .absent => .noRange
  | .malformed => .malformed416
  | .matched m1 m2 =>
    let start := m1.getD 0
    let e := m2.getD (total - 1)
    if start > e || e ≥ total then .unsat416 else .admitted start e

/-- The truncation step of `serveRange` (line 194): if the admitted span
`end-start+1` exceeds `FAIR_MAX_REQUEST_BYTES`, the end offset becomes
`start + FAIR_MAX_REQUEST_BYTES - 1`; the boolean reports whether
truncation occurred (the source then bumps `fairnessStats.truncations` and
logs a `media-range-truncate` event). -/
def truncateRange (cfg : FairConfig) (start endReq : Nat) : Nat × Bool :=
  if endReq - start + 1 > cfg.maxRequestBytes then
    (start + cfg.maxRequestBytes - 1, true)
  else (endReq, false)

/-! ### Head cache (lines 57-73) -/

/-- The head-cache build `ensureHeadCache(mediaFile)` (lines 58-72).
`readHead` is the oracle for the single `openSync`/`readSync`/`closeSync`
sequence reading up to `HOT_CACHE_BYTES` bytes at offset 0: `some bytes` is
a successful read returning those bytes, `none` a thrown I/O error (which
the source catches and logs as `head-cache-fail`, leaving `headCache.buf`
null).  The returned boolean reports whether a build was attempted (the
`openSync` was reached) by this call. -/
def ensureHeadCache (cfg : FairConfig) (fileExists : Bool)
    (readHead : Option (List Nat)) (cache : Option (List Nat)) :
    Option (List Nat) × Bool :=
  if cfg.hotCacheBytes = 0 || cache.isSome then (cache, false)
  else if fileExists then
    match readHead with
    | some bytes => (some bytes, true)
    | none => (cache, true)
  else (cache, false)

/-- `invalidateHeadCache()` (line 73). -/
def invalidateHeadCache (s : FairState) : FairState := { s with headCache := none }

/-- `resetPerMediaRevision()` (line 179): zeroes the nine fairness counters
and invalidates the head cache.  (It does not touch `fairClient` /
`fairOrder`.) -/
def resetPerMediaRevision (s : FairState) : FairState :=
  invalidateHeadCache { s with stats := zeroStats }

/-- `resetFairState()` (line 79): clears the client map and order.  This
function is defined in the source but has no caller anywhere in the
repository. -/
def resetFairState (s : FairState) : FairState := { s with clients := [] }

/-! ### Client map operations (lines 76-79, 199-201) -/

/-- `fairClient.get(g)` for a string key. -/
def lookupClient (cs : List (String × FairClient)) (g : String) : Option FairClient :=
  (cs.find? fun p => p.1 = g).map (·.2)

/-- `fairClient.get(k)` where `k` may be `null` (`none`): the map never
holds a `null` key, so the lookup misses. -/
def lookupClientOpt (cs : List (String × FairClient)) : Option String → Option FairClient
  | none => none
  | some g => lookupClient cs g

/-- `ensureFairClient(guid)` (line 78): create-on-miss with fresh state
`{ queue:[], deficit:0, lastActiveTs:now, tokens:0, lastRefill:now }`,
appending the key to `fairOrder` (here: to the end of the list). -/
def ensureFairClient (cs : List (String × FairClient)) (g : String) (now : Nat) :
    List (String × FairClient) :=
  if (lookupClient cs g).isSome then cs else cs ++ [(g, ⟨[], 0, now, 0, now⟩)]

/-- `fc.queue.push(job)` on the client keyed `g`. -/
def pushJob (cs : List (String × FairClient)) (g : String) (j : DeliveryJob) :
    List (String × FairClient) :=
  cs.map fun p => if p.1 = g then (p.1, { p.2 with queue := p.2.queue ++ [j] }) else p

/-- The `abortJob` path registered on `res.on('close')` (lines 200-201):
splice the job out of its client's queue (the deficit, tokens and other
clients are untouched). -/
def removeJob (cs : List (String × FairClient)) (g : String) (j : DeliveryJob) :
    List (String × FairClient) :=
  cs.map fun p => if p.1 = g then (p.1, { p.2 with queue := p.2.queue.erase j }) else p

/-! ### The DRR scheduling loop `fairProcessLoop` (lines 97-142) -/

/-- The effective token fill rate (lines 116-117):
`FAIR_RATE_CAP_BPS || CONTENT_BITRATE_BPS`. -/
def rateFillRate (cfg : FairConfig) : Nat :=
  if cfg.rateCapBps ≠ 0 then cfg.rateCapBps else cfg.contentBitrateBps

/-- Whether the rate-cap branch is active:
`CONFIG.FAIR_RATE_CAP_BPS || CONFIG.CONTENT_BITRATE_BPS` is truthy. -/
def rateActive (cfg : FairConfig) : Bool :=
  cfg.rateCapBps ≠ 0 || cfg.contentBitrateBps ≠ 0

/-- `job.end - job.current + 1` (line 107), computed in `Int` as the source
computes it in plain numbers. -/
def remainingBytes (j : DeliveryJob) : Int := (j.endPos : Int) - (j.current : Int) + 1

/-- The per-visit deficit top-up (line 106):
`if(fc.deficit<1) fc.deficit+=quantum` with quantum = `FAIR_CHUNK_BYTES`. -/
def topUpDeficit (cfg : FairConfig) (d : Int) : Int :=
  if d < 1 then d + (cfg.chunkBytes : Int) else d

/-- The ahead-gate test (lines 109-115): active only when
`FAIR_MAX_AHEAD_SEC` and a bitrate hint are configured and a broadcast
snapshot exists; extrapolates the playback clock when unpaused, converts
`curT + FAIR_MAX_AHEAD_SEC` to an allowed byte offset via the fill rate,
and defers the job when `job.start` exceeds it. -/
def aheadBlocked (cfg : FairConfig) (now : Nat) (bc : Option BroadcastSnap)
    (j : DeliveryJob) : Bool :=
  if cfg.maxAheadSec ≠ 0 && rateActive cfg then
    match bc with
    | none => false
    | some lb =>
      let bitrate : ℚ := (rateFillRate cfg : ℚ)
      let delta : ℚ := max 0 (((now : ℚ) - (lb.ts : ℚ)) / 1000)
      let curT : ℚ := if lb.paused then lb.t else lb.t + delta
      let allowedT : ℚ := curT + (cfg.maxAheadSec : ℚ)
      let allowedBytes : Int := ⌊bitrate * allowedT⌋
      decide ((j.start : Int) > allowedBytes)
  else false

/-- The token-bucket refill (line 117): add `fillRate * elapsedMs / 1000`
tokens when wall-clock time has elapsed, clamp at one fill-rate's worth
(`cap = fillRate`), and stamp `lastRefill`. -/
def refillTokens (cfg : FairConfig) (now : Nat) (tokens : ℚ) (lastRefill : Nat) :
    ℚ × Nat :=
  let fillRate : ℚ := (rateFillRate cfg : ℚ)
  let elapsedMs : Int := (now : Int) - (lastRefill : Int)
  if elapsedMs > 0 then
    let t := tokens + fillRate * (elapsedMs : ℚ) / 1000
    (if t > fillRate then fillRate else t, now)
  else (tokens, lastRefill)

/-- Per-job outcome of one loop-body iteration after the deficit top-up. -/
inductive FairEvent where
  | dropped (j : DeliveryJob)
  | completed (j : DeliveryJob)
  | abortedEof (j : DeliveryJob)
  | abortedReadErr (j : DeliveryJob)
  | served (j : DeliveryJob) (n : Nat)
  deriving Repr, DecidableEq

/-- Shape of one loop-body iteration's control flow: `skip ev` removes the
head job (the source's `fc.queue.shift(); i--; continue`, re-entering the
same queue), `stop` defers the queue until the next pass (`continue` to the
next client, job kept), `sent j' n` serves a chunk and moves to the next
client with the head job updated in place. -/
inductive VisitStep where
  | skip (ev : FairEvent)
  | stop
  | sent (j : DeliveryJob) (n : Nat)
  deriving Repr, DecidableEq

/-- The read-and-serve block of the loop body (lines 122-138): open the
file, read `allowed` bytes at `job.current`; a thrown error aborts the job
with reason `read-error` (catch block, line 138), `bytesRead <= 0` aborts
it with reason `eof-unexpected` (line 126) — both shift the job off the
queue and `res.end()` the sink, charging nothing; otherwise advance
`job.current` by `bytesRead`, charge the deficit, charge and clamp the
token bucket when rate-limited, and write the chunk (line 127-137). -/
def doRead (cfg : FairConfig) (read : Read) (job : DeliveryJob) (deficit : Int)
    (tokens : ℚ) (lastRefill : Nat) (allowed : Int) : VisitStep × Int × ℚ × Nat :=
  match read job.current allowed.toNat with
  | .err => (.skip (.abortedReadErr job), deficit, tokens, lastRefill)
  | .ok bytesRead =>
    if bytesRead = 0 then (.skip (.abortedEof job), deficit, tokens, lastRefill)
    else
      let tokens' := if rateActive cfg then max 0 (tokens - (bytesRead : ℚ)) else tokens
      (.sent { job with current := job.current + bytesRead } bytesRead,
        deficit - (bytesRead : Int), tokens', lastRefill)

/-- One loop-body iteration for the head job of a queue, after the deficit
top-up of line 106 (transliteration of lines 106-138): sink-closed drop,
completion check, `deficit<=0` defer, ahead gate, token refill and
`tokens<=0` defer, `toSend = min(remaining, min(deficit, quantum))`,
token narrowing `allowed = max(0, floor(tokens))` with its `allowed<1`
defer, then the read-and-serve block. -/
def visitStep (cfg : FairConfig) (now : Nat) (read : Read)
    (bc : Option BroadcastSnap) (job : DeliveryJob) (deficit : Int) (tokens0 : ℚ)
    (lastRefill0 : Nat) : VisitStep × Int × ℚ × Nat :=
  if job.resEnded then (.skip (.dropped job), deficit, tokens0, lastRefill0)
  else if remainingBytes job ≤ 0 then (.skip (.completed job), deficit, tokens0, lastRefill0)
  else if deficit ≤ 0 then (.stop, deficit, tokens0, lastRefill0)
  else if aheadBlocked cfg now bc job then (.stop, deficit, tokens0, lastRefill0)
  else
    let tl := if rateActive cfg then refillTokens cfg now tokens0 lastRefill0
      else (tokens0, lastRefill0)
    let tokens := tl.1
    let lastRefill := tl.2
    if rateActive cfg && decide (tokens ≤ 0) then (.stop, deficit, tokens, lastRefill)
    else
      let toSend : Int := min (remainingBytes job) (min deficit (cfg.chunkBytes : Int))
      if rateActive cfg && decide (tokens < (toSend : ℚ)) then
        let allowed : Int := max 0 ⌊tokens⌋
        if allowed < 1 then (.stop, deficit, tokens, lastRefill)
        else doRead cfg read job deficit tokens lastRefill allowed
      else doRead cfg read job deficit tokens lastRefill toSend

/-- The full treatment of one client within one pass of `fairProcessLoop`
(the `for` body for index `i`, including the `i--; continue` re-entries):
per iteration, top up the deficit when below 1 (line 106), run the
iteration body; a `skip` outcome re-enters the same queue with the next
job, `stop` and `sent` move on to the next client.  Returns the client's
new state and the chronological event list. -/
def visitQueue (cfg : FairConfig) (now : Nat) (read : Read)
    (bc : Option BroadcastSnap) (lastActiveTs : Nat) :
    List DeliveryJob → Int → ℚ → Nat → FairClient × List FairEvent
  | [], d, t, lr => (⟨[], d, lastActiveTs, t, lr⟩, [])
  | job :: rest, d0, t0, lr0 =>
    let d1 := topUpDeficit cfg d0
    match visitStep cfg now read bc job d1 t0 lr0 with
    | (.skip ev, d, t, lr) =>
      let r := visitQueue cfg now read bc lastActiveTs rest d t lr
      (r.1, ev :: r.2)
    | (.stop, d, t, lr) => (⟨job :: rest, d, lastActiveTs, t, lr⟩, [])
    | (.sent j n, d, t, lr) => (⟨j :: rest, d, lastActiveTs, t, lr⟩, [.served job n])

/-- One visit of a whole client record. -/
def visitClient (cfg : FairConfig) (now : Nat) (read : Read)
    (bc : Option BroadcastSnap) (fc : FairClient) : FairClient × List FairEvent :=
  visitQueue cfg now read bc fc.lastActiveTs fc.queue fc.deficit fc.tokens fc.lastRefill

/-- One full pass of `fairProcessLoop` over `fairOrder` (lines 104-139):
the clients are visited in insertion order; each client's outcome depends
only on its own state (the pass shares only the wall clock, the read
oracle and the broadcast snapshot). -/
def fairPassClients (cfg : FairConfig) (now : Nat) (read : Read)
    (bc : Option BroadcastSnap) (cs : List (String × FairClient)) :
    List (String × FairClient) :=
  cs.map fun p => (p.1, (visitClient cfg now read bc p.2).1)

/-! ### The delivery facade `serveRange` (lines 181-203) -/

/-- Outcome of one `serveRange` call (GET method). -/
inductive ServeResult where
  /-- 404: no media selected or file missing / stat failed (lines 182-183). -/
  | noMedia
  /-- 200 whole-file stream: no Range header (line 186). -/
  | fullFile (total : Nat)
  /-- 416 with no Content-Range header: regex did not match (line 187). -/
  | bare416
  /-- 416 with `Content-Range: bytes */total` (line 188). -/
  | cr416 (total : Nat)
  /-- fairness disabled: 206 direct stream of the validated, untruncated
  range (lines 189-191). -/
  | direct (start endPos : Nat)
  /-- 206 answered synchronously from the head cache (line 195). -/
  | cacheHit (slice : List Nat) (start endPos : Nat)
  /-- 206 job enqueued on the client's queue for the DRR loop (lines
  197-202). -/
  | enqueued (job : DeliveryJob)
  /-- the TypeError thrown at line 199 when `guid` is null:
  `ensureFairClient` was called with a fresh `noguid-` key but
  `fairClient.get(job.guid)` looked up `null` and returned undefined, so
  `fc.queue.push(job)` throws.  The map mutation made before the throw is
  kept in the returned state. -/
  | crashNoGuid
  deriving Repr, DecidableEq

/-- The job object literal of line 198:
`{ guid, start, end, current:start, ..., len:end-start+1 }`. -/
def mkJob (guid : Option String) (start endPos : Nat) : DeliveryJob :=
  { guid := guid, start := start, endPos := endPos, current := start,
    len := endPos - start + 1, resEnded := false }

/-- Job construction and enqueueing (lines 198-202): build the job from
the (possibly truncated) span, `ensureFairClient(guid || freshKey)` where
`freshKey` models the generated `'noguid-'+Math.random()` string, then
`fairClient.get(job.guid)` and push.  With `guid` null the lookup misses
and the push throws (`crashNoGuid`). -/
def enqueueJob (guid : Option String) (freshKey : String) (start endPos now : Nat)
    (s : FairState) : ServeResult × FairState :=
  let job := mkJob guid start endPos
  let key := guid.getD freshKey
  let cs := ensureFairClient s.clients key now
  match lookupClientOpt cs job.guid with
  | none => (.crashNoGuid, { s with clients := cs })
  | some _ => (.enqueued job, { s with clients := pushJob cs key job })

/-- Counter bump `fairnessStats.enqueued++` (line 192). -/
def bumpEnqueued (s : FairState) : FairState :=
  { s with stats := { s.stats with enqueued := s.stats.enqueued + 1 } }

/-- Counter bump `fairnessStats.truncations++` (line 194). -/
def bumpTruncations (s : FairState) : FairState :=
  { s with stats := { s.stats with truncations := s.stats.truncations + 1 } }

/-- Counter bump `fairnessStats.cacheHits++` (line 195). -/
def bumpCacheHits (s : FairState) : FairState :=
  { s with stats := { s.stats with cacheHits := s.stats.cacheHits + 1 } }

/-- Counter bump `fairnessStats.cacheMiss++` (line 196). -/
def bumpCacheMiss (s : FairState) : FairState :=
  { s with stats := { s.stats with cacheMiss := s.stats.cacheMiss + 1 } }

/-- The lazy build call `if(CONFIG.HOT_CACHE_BYTES) ensureHeadCache(mediaFile)`
(line 195). -/
def maybeEnsureCache (cfg : FairConfig) (fileExists : Bool)
    (readHead : Option (List Nat)) (s : FairState) : FairState :=
  if cfg.hotCacheBytes ≠ 0 then
    { s with headCache := (ensureHeadCache cfg fileExists readHead s.headCache).1 }
  else s

/-- The cache-or-enqueue tail (lines 195-202), after the truncation:
serve synchronously from the head cache when it is built and the
(truncated) end lies strictly inside it (bumping `cacheHits`); otherwise
bump `cacheMiss` (only when caching is configured) and enqueue a job. -/
def afterCacheCheck (cfg : FairConfig) (guid : Option String) (freshKey : String)
    (start endPos now : Nat) (s3 : FairState) : ServeResult × FairState :=
  match s3.headCache with
  | some buf =>
    if endPos < buf.length then
      (.cacheHit ((buf.drop start).take (endPos + 1 - start)) start endPos,
        bumpCacheHits s3)
    else
      enqueueJob guid freshKey start endPos now
        (if cfg.hotCacheBytes ≠ 0 then bumpCacheMiss s3 else s3)
  | none =>
    enqueueJob guid freshKey start endPos now
      (if cfg.hotCacheBytes ≠ 0 then bumpCacheMiss s3 else s3)

/-- The fairness-enabled tail of `serveRange` for an admitted range
(lines 192-202): bump `enqueued`, truncate and count it, lazily build the
head cache when configured, then serve from the cache or enqueue. -/
def serveFairAdmitted (cfg : FairConfig) (fileExists : Bool)
    (readHead : Option (List Nat)) (now : Nat) (guid : Option String)
    (freshKey : String) (start endReq : Nat) (s : FairState) :
    ServeResult × FairState :=
  let tr := truncateRange cfg start endReq
  let s2 := if tr.2 then bumpTruncations (bumpEnqueued s) else bumpEnqueued s
  afterCacheCheck cfg guid freshKey start tr.1 now
    (maybeEnsureCache cfg fileExists readHead s2)

/-- The facade `serveRange` (lines 181-203) for a GET request: 404 when the
file is absent, whole-file stream when no Range header, range validation
(lines 187-188), the legacy direct stream when fairness is disabled
(lines 189-191) — note the disabled branch runs before the truncation of
line 194 — and otherwise the fairness-enabled admitted path. -/
def serveRange (cfg : FairConfig) (fileExists : Bool) (total : Nat)
    (header : RangeHeaderView) (guid : Option String) (freshKey : String)
    (readHead : Option (List Nat)) (now : Nat) (s : FairState) :
    ServeResult × FairState :=
  if !fileExists then (.noMedia, s)
  else
    match parseRangeFair total header with
    | .noRange => (.fullFile total, s)
    | .malformed416 => (.bare416, s)
    | .unsat416 => (.cr416 total, s)
    | .admitted start endReq =>
      if !cfg.enabled then (.direct start endReq, s)
      else serveFairAdmitted cfg fileExists readHead now guid freshKey start endReq s

/-! ### Reachable scheduler states

The operations that mutate the module state are `serveRange` (enqueue), the
scheduling pass, the `res.on('close')` abort handler, and
`resetPerMediaRevision`.  `Reach` closes `initialFairState` under them;
pass steps carry the physical bound of `fs.readSync` (it never returns more
bytes than requested). -/

inductive Reach (cfg : FairConfig) : FairState → Prop where
  | init : Reach cfg initialFairState
  | serve {s} (fileExists : Bool) (total : Nat) (header : RangeHeaderView)
      (guid : Option String) (freshKey : String) (readHead : Option (List Nat))
      (now : Nat) :
      Reach cfg s →
      Reach cfg (serveRange cfg fileExists total header guid freshKey readHead now s).2
  | pass {s} (now : Nat) (read : Read) (bc : Option BroadcastSnap)
      (hread : ∀ p l n, read p l = .ok n → n ≤ l) :
      Reach cfg s →
      Reach cfg { s with clients := fairPassClients cfg now read bc s.clients }
  | closeAbort {s} (g : String) (j : DeliveryJob) :
      Reach cfg s → Reach cfg { s with clients := removeJob s.clients g j }
  | reset {s} : Reach cfg s → Reach cfg (resetPerMediaRevision s)

/-! ### Reduction lemmas for range parsing -/

/-- The fair parse admits a matched header whose defaulted span is in
bounds. -/
lemma parseRangeFair_admitted (total : Nat) (m1 m2 : Option Nat)
    (hse : m1.getD 0 ≤ m2.getD (total - 1)) (het : m2.getD (total - 1) < total) :
    parseRangeFair total (.matched m1 m2) =
      .admitted (m1.getD 0) (m2.getD (total - 1)) := by
  have hcond : (decide (m1.getD 0 > m2.getD (total - 1)) ||
      decide (m2.getD (total - 1) ≥ total)) = false := by
    simp only [Bool.or_eq_false_iff, decide_eq_false_iff_not]
    omega
  simp [parseRangeFair, hcond]

/-- The fair parse rejects a matched header whose defaulted span is out of
bounds. -/
lemma parseRangeFair_unsat (total : Nat) (m1 m2 : Option Nat)
    (h : m1.getD 0 > m2.getD (total - 1) ∨ m2.getD (total - 1) ≥ total) :
    parseRangeFair total (.matched m1 m2) = .unsat416 := by
  have hcond : (decide (m1.getD 0 > m2.getD (total - 1)) ||
      decide (m2.getD (total - 1) ≥ total)) = true := by
    simp only [Bool.or_eq_true, decide_eq_true_eq]
    omega
  simp [parseRangeFair, hcond]

/-! ### Concrete fixtures used by counterexamples and witnesses -/

/-- Default configuration with fairness enabled and no head cache, rate cap
or ahead gate (the `DEFAULTS` of lines 19-26). -/
def cfgPlain : FairConfig :=
  { maxRequestBytes := 1048576, chunkBytes := 524288, rateCapBps := 0,
    contentBitrateBps := 0, hotCacheBytes := 0, maxAheadSec := 0, enabled := true }

/-- Default configuration with fairness disabled (`FAIR_DELIVERY=0`). -/
def cfgDisabled : FairConfig := { cfgPlain with enabled := false }

/-- Default configuration with an 8-byte head cache enabled. -/
def cfgCache8 : FairConfig := { cfgPlain with hotCacheBytes := 8 }

/-- A pending 1000-byte job used to populate sample states. -/
def sampleJob : DeliveryJob :=
  { guid := some "g", start := 0, endPos := 999, current := 0, len := 1000,
    resEnded := false }

/-- A client with a queued job, a nonzero deficit and nonzero tokens. -/
def sampleClient : FairClient :=
  { queue := [sampleJob], deficit := 5, lastActiveTs := 0, tokens := 3, lastRefill := 0 }

/-- A scheduler state with one busy client, a built head cache and nonzero
counters. -/
def sampleState : FairState :=
  { clients := [("g", sampleClient)], headCache := some [1, 2, 3],
    stats := { zeroStats with enqueued := 7, truncations := 2 } }

/-! ### C1 — per-revision reset -/

/-- C1 counterexample: in the state `sampleState` — one client with a
queued job, deficit 5 and tokens 3 — `resetPerMediaRevision` leaves the
client map exactly as it was: the queued job is not aborted, the queue is
not cleared, and the deficit and token count are not reset to zero,
contradicting the claim that the reset aborts all queued jobs and zeroes
all per-client deficits and tokens. -/
theorem reset_keeps_queues_and_deficits :
    (resetPerMediaRevision sampleState).clients = sampleState.clients ∧
    lookupClient (resetPerMediaRevision sampleState).clients "g" = some sampleClient ∧
    sampleClient.queue = [sampleJob] ∧
    sampleClient.deficit = 5 ∧
    sampleClient.tokens = 3 := by
  refine ⟨rfl, ?_, rfl, rfl, rfl⟩
  decide

/-- C1 (amended): `resetPerMediaRevision` zeroes the nine fairness
counters and invalidates the head cache, which is therefore rebuilt from
the new file's bytes on the next `ensureHeadCache` call; the client map —
every queue, deficit and token count, and every queued job — is left
completely untouched, and no sink is closed (the job-clearing
`resetFairState` exists in the source but is never invoked). -/
theorem reset_per_media_revision_spec (s : FairState) (cfg : FairConfig)
    (newBytes : List Nat) (hc : cfg.hotCacheBytes ≠ 0) :
    (resetPerMediaRevision s).clients = s.clients ∧
    (resetPerMediaRevision s).headCache = none ∧
    (resetPerMediaRevision s).stats = zeroStats ∧
    ensureHeadCache cfg true (some newBytes) (resetPerMediaRevision s).headCache =
      (some newBytes, true) ∧
    resetFairState s = { s with clients := [] } := by
  refine ⟨rfl, rfl, rfl, ?_, rfl⟩
  simp [ensureHeadCache, resetPerMediaRevision, invalidateHeadCache, hc]

/-- Witness for `reset_per_media_revision_spec` at `sampleState` with the
8-byte cache configuration and new-file bytes `[9, 9]`. -/
theorem reset_per_media_revision_spec_witness :
    (resetPerMediaRevision sampleState).clients = sampleState.clients ∧
    (resetPerMediaRevision sampleState).headCache = none ∧
    (resetPerMediaRevision sampleState).stats = zeroStats ∧
    ensureHeadCache cfgCache8 true (some [9, 9])
      (resetPerMediaRevision sampleState).headCache = (some [9, 9], true) ∧
    resetFairState sampleState = { sampleState with clients := [] } :=
  reset_per_media_revision_spec sampleState cfgCache8 [9, 9] (by decide)

/-! ### C7 — fairness disabled -/

/-- C7 counterexample: with fairness disabled, a request for bytes
0-9999999 (span 10,000,000) of a 10,000,000-byte file is served as one
direct stream of the whole span, even though `maxRequestBytes` is
1,048,576 — the disabled branch (line 189) runs before the truncation of
line 194, so no truncation is applied. -/
theorem disabled_mode_serves_untruncated_span :
    serveRange cfgDisabled true 10000000 (.matched (some 0) (some 9999999))
        none "k" none 0 initialFairState =
      (.direct 0 9999999, initialFairState) ∧
    9999999 - 0 + 1 > cfgDisabled.maxRequestBytes := by
  constructor
  · rfl
  · decide

/-- C7 (amended): with fairness disabled, `serveRange` serves the
validated range directly with no queueing (the state is unchanged) and
applies the same range validation as the fair path — but it does not apply
the `maxRequestBytes` truncation: the full validated span is served, so a
single response can span up to the whole file. -/
theorem disabled_mode_direct_no_truncation (cfg : FairConfig) (total : Nat)
    (m1 m2 : Option Nat) (guid : Option String) (freshKey : String)
    (readHead : Option (List Nat)) (now : Nat) (s : FairState)
    (hdis : cfg.enabled = false)
    (hse : m1.getD 0 ≤ m2.getD (total - 1))
    (het : m2.getD (total - 1) < total) :
    serveRange cfg true total (.matched m1 m2) guid freshKey readHead now s =
      (.direct (m1.getD 0) (m2.getD (total - 1)), s) ∧
    (∀ h : RangeHeaderView,
      (serveRange cfg true total h guid freshKey readHead now s).1 = .cr416 total ↔
        parseRangeFair total h = .unsat416) := by
  constructor
  · simp [serveRange, parseRangeFair_admitted total m1 m2 hse het, hdis]
  · intro h
    cases h with
    | absent => simp [serveRange, parseRangeFair]
    | malformed => simp [serveRange, parseRangeFair]
    | matched n1 n2 =>
      by_cases hv : n1.getD 0 > n2.getD (total - 1) ∨ n2.getD (total - 1) ≥ total
      · simp [serveRange, parseRangeFair_unsat total n1 n2 hv]
      · push_neg at hv
        simp [serveRange, parseRangeFair_admitted total n1 n2 hv.1 hv.2, hdis]

/-- Witness for `disabled_mode_direct_no_truncation`: bytes 2-50 of a
100-byte file in disabled mode. -/
theorem disabled_mode_direct_no_truncation_witness :
    serveRange cfgDisabled true 100 (.matched (some 2) (some 50))
        none "k" none 0 initialFairState =
      (.direct ((some 2).getD 0) ((some 50).getD (100 - 1)), initialFairState) ∧
    (∀ h : RangeHeaderView,
      (serveRange cfgDisabled true 100 h none "k" none 0 initialFairState).1 =
          .cr416 100 ↔
        parseRangeFair 100 h = .unsat416) :=
  disabled_mode_direct_no_truncation cfgDisabled 100 (some 2) (some 50)
    none "k" none 0 initialFairState rfl (by decide) (by decide)

/-! ### C8 — requests with no client identifier -/

/-- C8 (code bug, failing input): a GET carrying `Range: bytes=0-99`
against a 1000-byte file with no `guid` query parameter, fairness enabled,
no head cache.  Line 199 calls `ensureFairClient('noguid-…')`, creating
the intended private single-use queue — visible in the returned state —
but then looks the client up with `fairClient.get(job.guid)` where
`job.guid` is `null`, gets `undefined`, and `fc.queue.push(job)` throws a
TypeError: the no-id branch of serve crashes instead of servicing the
request, and the job is never enqueued on the private queue. -/
theorem serve_no_guid_crashes :
    (serveRange cfgPlain true 1000 (.matched (some 0) (some 99))
        none "noguid-42" none 0 initialFairState).1 = ServeResult.crashNoGuid ∧
    lookupClient (serveRange cfgPlain true 1000 (.matched (some 0) (some 99))
        none "noguid-42" none 0 initialFairState).2.clients "noguid-42" =
      some { queue := [], deficit := 0, lastActiveTs := 0, tokens := 0, lastRefill := 0 } := by
  constructor
  · rfl
  · decide

/-! ### C9 — head cache build failure -/

/-- C9 counterexample: with an 8-byte cache configured and the build read
throwing (`readHead = none`), `ensureHeadCache` attempts the build, leaves
the cache unbuilt, and the very next call attempts the build again —
contradicting the claim that no subsequent request within the revision
triggers another build attempt. -/
theorem head_cache_failure_retries_build :
    (ensureHeadCache cfgCache8 true none none).2 = true ∧
    (ensureHeadCache cfgCache8 true none none).1 = none ∧
    (ensureHeadCache cfgCache8 true none
      (ensureHeadCache cfgCache8 true none none).1).2 = true := by
  decide

/-- C9 (amended): a successful `ensureHeadCache` is idempotent — once the
buffer is built, every later call is a no-op that attempts no build; an
I/O failure during the build is caught (and logged) and leaves the cache
unbuilt, so cache serving stays disabled, but — unlike the claim — every
subsequent call with caching enabled retries the build; a later successful
read then builds the cache. -/
theorem head_cache_ensure_spec (cfg : FairConfig) (b : List Nat)
    (rh : Option (List Nat)) (hc : cfg.hotCacheBytes ≠ 0) :
    ensureHeadCache cfg true rh (some b) = (some b, false) ∧
    ensureHeadCache cfg true none none = (none, true) ∧
    ensureHeadCache cfg true (some b) none = (some b, true) := by
  refine ⟨?_, ?_, ?_⟩ <;> simp [ensureHeadCache, hc]

/-- Witness for `head_cache_ensure_spec` with the 8-byte cache
configuration and buffer `[1, 2, 3]`. -/
theorem head_cache_ensure_spec_witness :
    ensureHeadCache cfgCache8 true (some [7]) (some [1, 2, 3]) = (some [1, 2, 3], false) ∧
    ensureHeadCache cfgCache8 true none none = (none, true) ∧
    ensureHeadCache cfgCache8 true (some [1, 2, 3]) none = (some [1, 2, 3], true) :=
  head_cache_ensure_spec cfgCache8 [1, 2, 3] (some [7]) (by decide)

/-! ### C4 — 416 contract on the fair and direct paths -/

/-- The claim's rejection conditions, formalized: a request whose Range
header did not match the `bytes=(\d*)-(\d*)` syntax has a bound that is
not a valid non-negative integer; for a matched header, the conditions are
`start > end` or `end >= total` after the open-bound defaults (`start` 0,
`end` `total-1`).  A matched capture group is always a digit string, so no
other invalid-bound case exists. -/
def rangeInvalid (total : Nat) : RangeHeaderView → Prop
  | .absent => False
  | .malformed => True
  | .matched m1 m2 => m1.getD 0 > m2.getD (total - 1) ∨ m2.getD (total - 1) ≥ total

instance (total : Nat) (h : RangeHeaderView) : Decidable (rangeInvalid total h) := by
  cases h <;> simp only [rangeInvalid] <;> infer_instance

/-- C4 counterexample: a Range header that does not match the byte-range
syntax (so its bounds are not valid non-negative integers) is answered on
both paths with a 416 that carries no `Content-Range: bytes */total`
header (`res.status(416).end()`, fair-delivery.js line 187 and
direct-delivery.js line 13), refuting the claim that every invalid-bound
request is answered 416 with `Content-Range: bytes */<length>`. -/
theorem range_416_malformed_no_content_range :
    parseRangeFair 100 .malformed = RangeDecision.malformed416 ∧
    parseRangeDirect 100 .malformed = RangeDecision.malformed416 ∧
    rangeInvalid 100 .malformed ∧
    RangeDecision.malformed416 ≠ RangeDecision.unsat416 := by
  decide

/-- C4 (amended): the fair and direct paths validate ranges identically;
a request is answered 416 exactly when `start > end`, a bound is not a
valid non-negative integer (header did not match the syntax), or
`end >= total`, with the open end defaulting to `total - 1` — but the
`Content-Range: bytes */total` header accompanies the 416 only when the
header matched the `bytes=x-y` syntax; a wholly malformed header gets a
bare 416. -/
theorem range_416_iff_invalid (total : Nat) (h : RangeHeaderView) :
    parseRangeFair total h = parseRangeDirect total h ∧
    ((parseRangeFair total h = .malformed416 ∨ parseRangeFair total h = .unsat416) ↔
      rangeInvalid total h) ∧
    (∀ m1 m2, h = .matched m1 m2 →
      (parseRangeFair total h = .unsat416 ↔ rangeInvalid total h)) := by
  cases h with
  | absent => simp [parseRangeFair, parseRangeDirect, rangeInvalid]
  | malformed => simp [parseRangeFair, parseRangeDirect, rangeInvalid]
  | matched m1 m2 =>
    have hcore : parseRangeFair total (.matched m1 m2) = .unsat416 ↔
        rangeInvalid total (.matched m1 m2) := by
      by_cases hv : m1.getD 0 > m2.getD (total - 1) ∨ m2.getD (total - 1) ≥ total
      · simp [parseRangeFair_unsat total m1 m2 hv, rangeInvalid, hv]
      · push_neg at hv
        simp [parseRangeFair_admitted total m1 m2 hv.1 hv.2, rangeInvalid]
        omega
    refine ⟨rfl, ?_, ?_⟩
    · constructor
      · rintro (hmal | hus)
        · by_cases hv : m1.getD 0 > m2.getD (total - 1) ∨ m2.getD (total - 1) ≥ total
          · exact hv
          · push_neg at hv
            rw [parseRangeFair_admitted total m1 m2 hv.1 hv.2] at hmal
            exact absurd hmal (by simp)
        · exact hcore.mp hus
      · intro hinv
        exact Or.inr (hcore.mpr hinv)
    · intro n1 n2 _
      exact hcore

/-- Witness for `range_416_iff_invalid`: an out-of-bounds request
(bytes 5-200 of a 100-byte file) is rejected identically on both paths
with the `Content-Range`-carrying 416. -/
theorem range_416_iff_invalid_witness :
    parseRangeFair 100 (.matched (some 5) (some 200)) =
      parseRangeDirect 100 (.matched (some 5) (some 200)) ∧
    parseRangeFair 100 (.matched (some 5) (some 200)) = .unsat416 ∧
    rangeInvalid 100 (.matched (some 5) (some 200)) :=
  ⟨(range_416_iff_invalid 100 (.matched (some 5) (some 200))).1,
    ((range_416_iff_invalid 100 (.matched (some 5) (some 200))).2.2 (some 5) (some 200)
      rfl).mpr (by decide),
    by decide⟩

/-! ### Frame lemmas for the admitted fair path -/

lemma bumpEnqueued_clients (s : FairState) : (bumpEnqueued s).clients = s.clients := rfl

lemma bumpEnqueued_headCache (s : FairState) :
    (bumpEnqueued s).headCache = s.headCache := rfl

lemma maybeEnsureCache_clients (cfg : FairConfig) (fe : Bool)
    (rh : Option (List Nat)) (s : FairState) :
    (maybeEnsureCache cfg fe rh s).clients = s.clients := by
  unfold maybeEnsureCache
  split <;> rfl

lemma maybeEnsureCache_stats (cfg : FairConfig) (fe : Bool)
    (rh : Option (List Nat)) (s : FairState) :
    (maybeEnsureCache cfg fe rh s).stats = s.stats := by
  unfold maybeEnsureCache
  split <;> rfl

/-- With the cache already built, the lazy build call is a no-op. -/
lemma maybeEnsureCache_of_built (cfg : FairConfig) (fe : Bool)
    (rh : Option (List Nat)) (s : FairState) (buf : List Nat)
    (hb : s.headCache = some buf) :
    maybeEnsureCache cfg fe rh s = s := by
  unfold maybeEnsureCache
  split
  · have h : (ensureHeadCache cfg fe rh s.headCache).1 = s.headCache := by
      simp [ensureHeadCache, hb]
    rw [h]
  · rfl

/-- The enqueue tail either crashes on a null guid or enqueues exactly the
job literal of line 198. -/
lemma enqueueJob_fst (guid : Option String) (fk : String) (start endPos now : Nat)
    (s : FairState) :
    (enqueueJob guid fk start endPos now s).1 = .crashNoGuid ∨
      (enqueueJob guid fk start endPos now s).1 = .enqueued (mkJob guid start endPos) := by
  simp only [enqueueJob, mkJob]
  rcases hl : lookupClientOpt (ensureFairClient s.clients (guid.getD fk) now) guid
    with _ | fc
  · exact Or.inl rfl
  · exact Or.inr rfl

lemma enqueueJob_enqueued {guid : Option String} {fk : String}
    {start endPos now : Nat} {s : FairState} {job : DeliveryJob}
    (h : (enqueueJob guid fk start endPos now s).1 = .enqueued job) :
    job = mkJob guid start endPos := by
  rcases enqueueJob_fst guid fk start endPos now s with h' | h' <;> rw [h'] at h
  · exact absurd h (by simp)
  · injection h with h
    exact h.symm

lemma enqueueJob_stats (guid : Option String) (fk : String) (start endPos now : Nat)
    (s : FairState) :
    (enqueueJob guid fk start endPos now s).2.stats = s.stats := by
  simp only [enqueueJob, mkJob]
  rcases hl : lookupClientOpt (ensureFairClient s.clients (guid.getD fk) now) guid
    with _ | fc <;> rfl

lemma enqueueJob_headCache (guid : Option String) (fk : String)
    (start endPos now : Nat) (s : FairState) :
    (enqueueJob guid fk start endPos now s).2.headCache = s.headCache := by
  simp only [enqueueJob, mkJob]
  rcases hl : lookupClientOpt (ensureFairClient s.clients (guid.getD fk) now) guid
    with _ | fc <;> rfl

/-- Shape of the cache-or-enqueue tail's outcome. -/
lemma afterCacheCheck_fst (cfg : FairConfig) (guid : Option String) (fk : String)
    (start endPos now : Nat) (s3 : FairState) :
    (∃ buf, s3.headCache = some buf ∧ endPos < buf.length ∧
      (afterCacheCheck cfg guid fk start endPos now s3).1 =
        .cacheHit ((buf.drop start).take (endPos + 1 - start)) start endPos) ∨
    (afterCacheCheck cfg guid fk start endPos now s3).1 = .crashNoGuid ∨
    (afterCacheCheck cfg guid fk start endPos now s3).1 =
      .enqueued (mkJob guid start endPos) := by
  unfold afterCacheCheck
  rcases hb : s3.headCache with _ | buf
  · exact Or.inr (enqueueJob_fst guid fk start endPos now _)
  · by_cases he : endPos < buf.length
    · exact Or.inl ⟨buf, rfl, he, by simp [he]⟩
    · simp only [he, if_false]
      exact Or.inr (enqueueJob_fst guid fk start endPos now _)

lemma afterCacheCheck_truncations (cfg : FairConfig) (guid : Option String)
    (fk : String) (start endPos now : Nat) (s3 : FairState) :
    (afterCacheCheck cfg guid fk start endPos now s3).2.stats.truncations =
      s3.stats.truncations := by
  unfold afterCacheCheck
  rcases hb : s3.headCache with _ | buf
  · rw [enqueueJob_stats]
    split <;> rfl
  · by_cases he : endPos < buf.length
    · simp [he, bumpCacheHits]
    · simp only [he, if_false]
      rw [enqueueJob_stats]
      split <;> rfl

/-- Arithmetic of the truncation step. -/
lemma truncateRange_spec (cfg : FairConfig) (start endReq : Nat)
    (hmax : 1 ≤ cfg.maxRequestBytes) (h : start ≤ endReq) :
    start ≤ (truncateRange cfg start endReq).1 ∧
    (truncateRange cfg start endReq).1 + 1 - start ≤ cfg.maxRequestBytes ∧
    ((truncateRange cfg start endReq).2 = true ↔
      endReq - start + 1 > cfg.maxRequestBytes) ∧
    ((truncateRange cfg start endReq).2 = true →
      (truncateRange cfg start endReq).1 = start + cfg.maxRequestBytes - 1) ∧
    ((truncateRange cfg start endReq).2 = false →
      (truncateRange cfg start endReq).1 = endReq) := by
  unfold truncateRange
  split
  · next hgt => refine ⟨by omega, by omega, by simp [hgt], fun _ => rfl, by simp⟩
  · next hle => refine ⟨by omega, by omega, by simp [hle], by simp, fun _ => rfl⟩

/-- Reduction of `serveRange` to the admitted fair tail. -/
lemma serveRange_admitted (cfg : FairConfig) (total : Nat) (m1 m2 : Option Nat)
    (guid : Option String) (freshKey : String) (readHead : Option (List Nat))
    (now : Nat) (s : FairState) (hen : cfg.enabled = true)
    (hse : m1.getD 0 ≤ m2.getD (total - 1)) (het : m2.getD (total - 1) < total) :
    serveRange cfg true total (.matched m1 m2) guid freshKey readHead now s =
      serveFairAdmitted cfg true readHead now guid freshKey
        (m1.getD 0) (m2.getD (total - 1)) s := by
  simp [serveRange, parseRangeFair_admitted total m1 m2 hse het, hen]

/-! ### C2 — truncation bound -/

/-- C2: for every admitted range request in fairness mode the served span
is bounded by `maxRequestBytes`: a synchronous cache hit's span and slice
length, and an enqueued job's span and `len`, never exceed it; when the
requested span `end - start + 1` exceeds `maxRequestBytes` the end offset
is truncated to `start + maxRequestBytes - 1` and the truncation is
reported by the `truncations` counter (with the `media-range-truncate`
event), and otherwise the counter is untouched. -/
theorem fair_served_span_bounded (cfg : FairConfig) (total : Nat)
    (m1 m2 : Option Nat) (guid : Option String) (freshKey : String)
    (readHead : Option (List Nat)) (now : Nat) (s : FairState)
    (hen : cfg.enabled = true) (hmax : 1 ≤ cfg.maxRequestBytes)
    (hse : m1.getD 0 ≤ m2.getD (total - 1)) (het : m2.getD (total - 1) < total) :
    (∀ slice st en,
      (serveRange cfg true total (.matched m1 m2) guid freshKey readHead now s).1 =
          .cacheHit slice st en →
        en + 1 - st ≤ cfg.maxRequestBytes ∧ slice.length ≤ cfg.maxRequestBytes) ∧
    (∀ job,
      (serveRange cfg true total (.matched m1 m2) guid freshKey readHead now s).1 =
          .enqueued job →
        job.endPos + 1 - job.start ≤ cfg.maxRequestBytes ∧
        job.len ≤ cfg.maxRequestBytes) ∧
    (m2.getD (total - 1) - m1.getD 0 + 1 > cfg.maxRequestBytes →
      (serveRange cfg true total (.matched m1 m2) guid freshKey readHead now s).2.stats.truncations =
          s.stats.truncations + 1 ∧
      (∀ job,
        (serveRange cfg true total (.matched m1 m2) guid freshKey readHead now s).1 =
            .enqueued job →
          job.endPos = m1.getD 0 + cfg.maxRequestBytes - 1)) ∧
    (m2.getD (total - 1) - m1.getD 0 + 1 ≤ cfg.maxRequestBytes →
      (serveRange cfg true total (.matched m1 m2) guid freshKey readHead now s).2.stats.truncations =
        s.stats.truncations) := by
  rw [serveRange_admitted cfg total m1 m2 guid freshKey readHead now s hen hse het]
  set start := m1.getD 0 with hstart
  set endReq := m2.getD (total - 1) with hendReq
  obtain ⟨hle, hspan, hiff, htr, hntr⟩ := truncateRange_spec cfg start endReq hmax hse
  have hshape := afterCacheCheck_fst cfg guid freshKey start
    (truncateRange cfg start endReq).1 now
    (maybeEnsureCache cfg true readHead
      (if (truncateRange cfg start endReq).2 then bumpTruncations (bumpEnqueued s)
        else bumpEnqueued s))
  have hstats : (serveFairAdmitted cfg true readHead now guid freshKey start endReq s).2.stats.truncations =
      if (truncateRange cfg start endReq).2 then s.stats.truncations + 1
      else s.stats.truncations := by
    unfold serveFairAdmitted
    rw [afterCacheCheck_truncations, maybeEnsureCache_stats]
    split <;> rfl
  refine ⟨?_, ?_, ?_, ?_⟩
  · intro slice st en hres
    unfold serveFairAdmitted at hres
    rcases hshape with ⟨buf, _, hlen, hhit⟩ | hcr | henq
    · rw [hhit] at hres
      injection hres with h1 h2 h3
      subst h1
      subst h2
      subst h3
      constructor
      · omega
      · simp only [List.length_take]
        omega
    · rw [hcr] at hres
      exact absurd hres (by simp)
    · rw [henq] at hres
      exact absurd hres (by simp)
  · intro job hres
    unfold serveFairAdmitted at hres
    rcases hshape with ⟨buf, _, hlen, hhit⟩ | hcr | henq
    · rw [hhit] at hres
      exact absurd hres (by simp)
    · rw [hcr] at hres
      exact absurd hres (by simp)
    · rw [henq] at hres
      injection hres with h1
      subst h1
      refine ⟨by simp [mkJob]; omega, by simp [mkJob]; omega⟩
  · intro hgt
    have h2 : (truncateRange cfg start endReq).2 = true := by
      rw [hiff]; omega
    refine ⟨by rw [hstats, h2]; rfl, ?_⟩
    intro job hres
    unfold serveFairAdmitted at hres
    rcases hshape with ⟨buf, _, hlen, hhit⟩ | hcr | henq
    · rw [hhit] at hres
      exact absurd hres (by simp)
    · rw [hcr] at hres
      exact absurd hres (by simp)
    · rw [henq] at hres
      injection hres with h1
      subst h1
      simp [mkJob, htr h2]
  · intro hle'
    have h2 : (truncateRange cfg start endReq).2 = false := by
      rcases h : (truncateRange cfg start endReq).2
      · rfl
      · rw [hiff] at h; omega
    rw [hstats, h2]
    rfl

/-- Witness for `fair_served_span_bounded`: a 10,000,000-byte request
against the default 1,048,576-byte cap (client "g", no cache). -/
theorem fair_served_span_bounded_witness :
    (∀ job,
      (serveRange cfgPlain true 10000000 (.matched (some 0) (some 9999999))
          (some "g") "k" none 0 initialFairState).1 = .enqueued job →
        job.endPos + 1 - job.start ≤ cfgPlain.maxRequestBytes ∧
        job.len ≤ cfgPlain.maxRequestBytes) ∧
    ((9999999 : Nat) - 0 + 1 > cfgPlain.maxRequestBytes →
      (serveRange cfgPlain true 10000000 (.matched (some 0) (some 9999999))
          (some "g") "k" none 0 initialFairState).2.stats.truncations =
        initialFairState.stats.truncations + 1 ∧
      (∀ job,
        (serveRange cfgPlain true 10000000 (.matched (some 0) (some 9999999))
            (some "g") "k" none 0 initialFairState).1 = .enqueued job →
          job.endPos = 0 + cfgPlain.maxRequestBytes - 1)) :=
  ⟨(fair_served_span_bounded cfgPlain 10000000 (some 0) (some 9999999)
      (some "g") "k" none 0 initialFairState rfl (by decide) (by decide) (by decide)).2.1,
    (fair_served_span_bounded cfgPlain 10000000 (some 0) (some 9999999)
      (some "g") "k" none 0 initialFairState rfl (by decide) (by decide) (by decide)).2.2.1⟩

/-! ### C10 — cache-hit fast path -/

/-- Reduction of the cache-or-enqueue tail on a built cache containing the
span end. -/
lemma afterCacheCheck_hit (cfg : FairConfig) (guid : Option String) (fk : String)
    (start endPos now : Nat) (s3 : FairState) (buf : List Nat)
    (hb : s3.headCache = some buf) (he : endPos < buf.length) :
    afterCacheCheck cfg guid fk start endPos now s3 =
      (.cacheHit ((buf.drop start).take (endPos + 1 - start)) start endPos,
        bumpCacheHits s3) := by
  unfold afterCacheCheck
  rw [hb]
  simp [he]

/-- C10: when the head cache is built and the admitted request's (possibly
truncated) end offset lies strictly inside it, `serveRange` answers
immediately from the cache with the exact byte slice in a single full
response and returns: no `DeliveryJob` is constructed, the client map —
every queue, DRR deficit and token bucket — is left unchanged (so neither
the rate cap nor the ahead gate can apply to this response, both live in
the scheduling loop the request never reaches), the cache itself is
unchanged, and of the counters only `enqueued`, possibly `truncations`,
and `cacheHits` move. -/
theorem cache_hit_fast_path (cfg : FairConfig) (total : Nat) (m1 m2 : Option Nat)
    (guid : Option String) (freshKey : String) (readHead : Option (List Nat))
    (now : Nat) (s : FairState) (buf : List Nat)
    (hen : cfg.enabled = true)
    (hse : m1.getD 0 ≤ m2.getD (total - 1)) (het : m2.getD (total - 1) < total)
    (hbuf : s.headCache = some buf)
    (hend : (truncateRange cfg (m1.getD 0) (m2.getD (total - 1))).1 < buf.length) :
    serveRange cfg true total (.matched m1 m2) guid freshKey readHead now s =
      (.cacheHit
          ((buf.drop (m1.getD 0)).take
            ((truncateRange cfg (m1.getD 0) (m2.getD (total - 1))).1 + 1 - m1.getD 0))
          (m1.getD 0) (truncateRange cfg (m1.getD 0) (m2.getD (total - 1))).1,
        bumpCacheHits
          (if (truncateRange cfg (m1.getD 0) (m2.getD (total - 1))).2 then
            bumpTruncations (bumpEnqueued s)
          else bumpEnqueued s)) ∧
    (serveRange cfg true total (.matched m1 m2) guid freshKey readHead now s).2.clients =
      s.clients ∧
    (serveRange cfg true total (.matched m1 m2) guid freshKey readHead now s).2.headCache =
      s.headCache ∧
    (serveRange cfg true total (.matched m1 m2) guid freshKey readHead now s).2.stats.cacheHits =
      s.stats.cacheHits + 1 ∧
    (serveRange cfg true total (.matched m1 m2) guid freshKey readHead now s).2.stats.cacheMiss =
      s.stats.cacheMiss ∧
    (serveRange cfg true total (.matched m1 m2) guid freshKey readHead now s).2.stats.completed =
      s.stats.completed ∧
    (serveRange cfg true total (.matched m1 m2) guid freshKey readHead now s).2.stats.aborted =
      s.stats.aborted ∧
    (serveRange cfg true total (.matched m1 m2) guid freshKey readHead now s).2.stats.chunkServes =
      s.stats.chunkServes ∧
    (serveRange cfg true total (.matched m1 m2) guid freshKey readHead now s).2.stats.aheadDeferred =
      s.stats.aheadDeferred ∧
    (serveRange cfg true total (.matched m1 m2) guid freshKey readHead now s).2.stats.rateLimited =
      s.stats.rateLimited := by
  have hred := serveRange_admitted cfg total m1 m2 guid freshKey readHead now s hen hse het
  set start := m1.getD 0 with hstart
  set endReq := m2.getD (total - 1) with hendReq
  set s2 := if (truncateRange cfg start endReq).2 then bumpTruncations (bumpEnqueued s)
    else bumpEnqueued s with hs2
  have hs2cache : s2.headCache = some buf := by
    rw [hs2]
    split <;> exact hbuf
  have hme : maybeEnsureCache cfg true readHead s2 = s2 :=
    maybeEnsureCache_of_built cfg true readHead s2 buf hs2cache
  have hmain : serveRange cfg true total (.matched m1 m2) guid freshKey readHead now s =
      (.cacheHit ((buf.drop start).take ((truncateRange cfg start endReq).1 + 1 - start))
        start (truncateRange cfg start endReq).1, bumpCacheHits s2) := by
    rw [hred]
    show afterCacheCheck cfg guid freshKey start (truncateRange cfg start endReq).1 now
        (maybeEnsureCache cfg true readHead s2) = _
    rw [hme]
    exact afterCacheCheck_hit cfg guid freshKey start _ now s2 buf hs2cache hend
  refine ⟨hmain, ?_, ?_, ?_, ?_, ?_, ?_, ?_, ?_, ?_⟩ <;>
    rw [hmain] <;> rw [hs2] <;> rcases (truncateRange cfg start endReq).2 <;> rfl

/-- Configuration for the cache-hit witness: 10-byte head cache, 4-byte
request cap. -/
def cfgHit : FairConfig := { cfgPlain with hotCacheBytes := 10, maxRequestBytes := 4 }

/-- A built 10-byte head cache buffer. -/
def bufHit : List Nat := [10, 11, 12, 13, 14, 15, 16, 17, 18, 19]

/-- A state whose head cache is built with `bufHit`. -/
def sHit : FairState := { clients := [], headCache := some bufHit, stats := zeroStats }

/-- Witness for `cache_hit_fast_path`: bytes 2-5 of a 100-byte file served
from the built 10-byte cache. -/
theorem cache_hit_fast_path_witness :
    serveRange cfgHit true 100 (.matched (some 2) (some 5)) (some "g") "k" none 0 sHit =
      (.cacheHit ((bufHit.drop 2).take ((truncateRange cfgHit 2 5).1 + 1 - 2)) 2
          (truncateRange cfgHit 2 5).1,
        bumpCacheHits
          (if (truncateRange cfgHit 2 5).2 then bumpTruncations (bumpEnqueued sHit)
          else bumpEnqueued sHit)) ∧
    (serveRange cfgHit true 100 (.matched (some 2) (some 5)) (some "g") "k" none 0 sHit).2.clients =
      sHit.clients ∧
    (serveRange cfgHit true 100 (.matched (some 2) (some 5)) (some "g") "k" none 0 sHit).2.headCache =
      sHit.headCache ∧
    (serveRange cfgHit true 100 (.matched (some 2) (some 5)) (some "g") "k" none 0 sHit).2.stats.cacheHits =
      sHit.stats.cacheHits + 1 ∧
    (serveRange cfgHit true 100 (.matched (some 2) (some 5)) (some "g") "k" none 0 sHit).2.stats.cacheMiss =
      sHit.stats.cacheMiss ∧
    (serveRange cfgHit true 100 (.matched (some 2) (some 5)) (some "g") "k" none 0 sHit).2.stats.completed =
      sHit.stats.completed ∧
    (serveRange cfgHit true 100 (.matched (some 2) (some 5)) (some "g") "k" none 0 sHit).2.stats.aborted =
      sHit.stats.aborted ∧
    (serveRange cfgHit true 100 (.matched (some 2) (some 5)) (some "g") "k" none 0 sHit).2.stats.chunkServes =
      sHit.stats.chunkServes ∧
    (serveRange cfgHit true 100 (.matched (some 2) (some 5)) (some "g") "k" none 0 sHit).2.stats.aheadDeferred =
      sHit.stats.aheadDeferred ∧
    (serveRange cfgHit true 100 (.matched (some 2) (some 5)) (some "g") "k" none 0 sHit).2.stats.rateLimited =
      sHit.stats.rateLimited :=
  cache_hit_fast_path cfgHit 100 (some 2) (some 5) (some "g") "k" none 0 sHit bufHit
    rfl (by decide) (by decide) rfl (by decide)

/-! ### C3 — the deficit top-up condition -/

/-- C3 counterexample: a visited queue with deficit 1 — strictly less than
the quantum `chunkBytes = 524288` — receives no top-up: line 106 adds a
quantum only when the deficit is below 1, not below one quantum.  (A
deficit strictly between 0 and one quantum arises whenever a visit serves
fewer bytes than the whole quantum, e.g. a token-narrowed or short read.) -/
theorem drr_topup_not_quantum_threshold :
    topUpDeficit cfgPlain 1 = 1 ∧
    (1 : Int) < (cfgPlain.chunkBytes : Int) ∧
    topUpDeficit cfgPlain 1 ≠ 1 + (cfgPlain.chunkBytes : Int) := by
  decide

/-- C3 (amended): on each visit of a client queue with a non-empty FIFO,
the loop adds one quantum (`chunkBytes`) to the deficit exactly when the
deficit is less than 1 (not: less than one quantum); a deficit of at least
1 is kept as is.  The top-up is observable in the loop: a client whose head
job is deferred (for example by the ahead gate) comes out of the pass with
exactly the topped-up deficit and nothing else changed. -/
theorem drr_topup_iff_deficit_lt_one (cfg : FairConfig) (d : Int)
    (hq : 1 ≤ cfg.chunkBytes) :
    (topUpDeficit cfg d = d + (cfg.chunkBytes : Int) ↔ d < 1) ∧
    (1 ≤ d → topUpDeficit cfg d = d) ∧
    (∀ (now : Nat) (read : Read) (bc : Option BroadcastSnap) (lat : Nat)
        (job : DeliveryJob) (rest : List DeliveryJob) (t : ℚ) (lr : Nat),
      job.resEnded = false → 0 < remainingBytes job →
      aheadBlocked cfg now bc job = true →
      (visitQueue cfg now read bc lat (job :: rest) d t lr).1 =
        ⟨job :: rest, topUpDeficit cfg d, lat, t, lr⟩) := by
  refine ⟨?_, ?_, ?_⟩
  · unfold topUpDeficit
    by_cases hd : d < 1
    · simp [hd]
    · simp [hd]
      omega
  · intro hd
    unfold topUpDeficit
    rw [if_neg (by omega)]
  · intro now read bc lat job rest t lr hres hrem hgate
    have hstep : visitStep cfg now read bc job (topUpDeficit cfg d) t lr =
        (.stop, topUpDeficit cfg d, t, lr) := by
      by_cases hd : topUpDeficit cfg d ≤ 0
      · simp [visitStep, hres, not_le.mpr hrem, hd]
      · simp [visitStep, hres, not_le.mpr hrem, hd, hgate]
    simp only [visitQueue]
    rw [hstep]

/-- Configuration with a one-second ahead gate and a 1000 B/s rate cap,
used to exhibit an ahead-gate deferral. -/
def cfgGate : FairConfig := { cfgPlain with maxAheadSec := 1, rateCapBps := 1000 }

/-- A job starting far beyond the gate's allowed byte offset. -/
def jobGate : DeliveryJob :=
  { guid := some "g", start := 5000, endPos := 5999, current := 5000, len := 1000,
    resEnded := false }

/-- A read oracle always returning 10 bytes. -/
def readOk10 : Read := fun _ _ => .ok 10

/-- Witness for `drr_topup_iff_deficit_lt_one`: deficit 7 with quantum
524288, and a concrete gate-blocked visit (paused broadcast at t=0,
allowed offset 1000, job start 5000) that keeps exactly the topped-up
deficit. -/
theorem drr_topup_iff_deficit_lt_one_witness :
    (topUpDeficit cfgGate 7 = 7 + (cfgGate.chunkBytes : Int) ↔ (7 : Int) < 1) ∧
    (visitQueue cfgGate 0 readOk10 (some ⟨0, true, 0⟩) 0 (jobGate :: []) 7 0 0).1 =
      ⟨jobGate :: [], topUpDeficit cfgGate 7, 0, 0, 0⟩ :=
  ⟨(drr_topup_iff_deficit_lt_one cfgGate 7 (by decide)).1,
    (drr_topup_iff_deficit_lt_one cfgGate 7 (by decide)).2.2 0 readOk10
      (some ⟨0, true, 0⟩) 0 jobGate [] 0 0 rfl (by decide)
      (by simp [aheadBlocked, rateActive, rateFillRate, cfgGate, cfgPlain, jobGate])⟩

/-! ### C5 — chunk reads, cursor advance and abort conditions -/

/-- A pending 100-byte job at offset 0. -/
def jobShort : DeliveryJob :=
  { guid := some "a", start := 0, endPos := 99, current := 0, len := 100,
    resEnded := false }

/-- C5 counterexample: the loop requests 100 bytes and the positional read
returns 10 — fewer than requested, at a position that is not the job's end
(the advanced cursor 10 is well before end offset 99) — yet the job is not
aborted as a read error: the chunk is served, the cursor advances to 10 and
the job stays at the head of its queue. -/
theorem short_read_not_aborted :
    (10 : Nat) < 100 ∧ jobShort.current + 10 ≤ jobShort.endPos ∧
    visitQueue cfgPlain 0 readOk10 none 0 [jobShort] 0 0 0 =
      (⟨[{ jobShort with current := 10 }], 524278, 0, 0, 0⟩,
        [FairEvent.served jobShort 10]) := by
  decide

/-- C5 (amended): in the read-and-serve block the job's cursor advances by
exactly the number of bytes actually read and the deficit is charged by
that same amount (with the token bucket charged and clamped when a rate is
configured); the job is aborted — shifted off its queue, its sink ended,
one abort event emitted — exactly when the read throws (reason
`read-error`) or returns zero bytes (reason `eof-unexpected`); a positive
short read is not aborted, even far from the job's end.  One client's
visit outcome, abort included, leaves every other queue in the pass
untouched. -/
theorem read_step_cursor_and_abort (cfg : FairConfig) (read : Read)
    (job : DeliveryJob) (d : Int) (t : ℚ) (lr : Nat) (allowed : Int) :
    (read job.current allowed.toNat = .err →
      doRead cfg read job d t lr allowed = (.skip (.abortedReadErr job), d, t, lr)) ∧
    (read job.current allowed.toNat = .ok 0 →
      doRead cfg read job d t lr allowed = (.skip (.abortedEof job), d, t, lr)) ∧
    (∀ n : Nat, 0 < n → read job.current allowed.toNat = .ok n →
      doRead cfg read job d t lr allowed =
        (.sent { job with current := job.current + n } n, d - (n : Int),
          if rateActive cfg then max 0 (t - (n : ℚ)) else t, lr)) ∧
    (∀ (now : Nat) (bc : Option BroadcastSnap) (pre post : List (String × FairClient))
        (g : String) (fc : FairClient),
      fairPassClients cfg now read bc (pre ++ (g, fc) :: post) =
        fairPassClients cfg now read bc pre ++
          (g, (visitClient cfg now read bc fc).1) :: fairPassClients cfg now read bc post) := by
  refine ⟨?_, ?_, ?_, ?_⟩
  · intro h
    simp [doRead, h]
  · intro h
    simp [doRead, h]
  · intro n hn h
    simp [doRead, h, Nat.pos_iff_ne_zero.mp hn]
  · intro now bc pre post g fc
    simp [fairPassClients]

/-- A read oracle that always throws. -/
def readErrAll : Read := fun _ _ => .err

/-- Witness for `read_step_cursor_and_abort`: a throwing read aborts the
concrete job with the read-error reason, charging nothing. -/
theorem read_step_cursor_and_abort_witness :
    doRead cfgPlain readErrAll jobShort 5 0 0 3 =
      (.skip (.abortedReadErr jobShort), 5, 0, 0) :=
  (read_step_cursor_and_abort cfgPlain readErrAll jobShort 5 0 0 3).1 rfl

/-! ### C6 — deficit and token-bucket invariants over reachable states -/

/-- The per-client invariant of the claim: the DRR deficit is never
negative and the token bucket holds between zero and one fill-rate's worth
of tokens. -/
def ClientInv (cfg : FairConfig) (fc : FairClient) : Prop :=
  0 ≤ fc.deficit ∧ 0 ≤ fc.tokens ∧ fc.tokens ≤ (rateFillRate cfg : ℚ)

lemma refillTokens_inv (cfg : FairConfig) (now : Nat) (t : ℚ) (lr : Nat)
    (h0 : 0 ≤ t) (h1 : t ≤ (rateFillRate cfg : ℚ)) :
    0 ≤ (refillTokens cfg now t lr).1 ∧
      (refillTokens cfg now t lr).1 ≤ (rateFillRate cfg : ℚ) := by
  simp only [refillTokens]
  by_cases he : ((now : Int) - (lr : Int)) > 0
  · rw [if_pos he]
    have hep : (0 : ℚ) < (((now : Int) - (lr : Int) : Int) : ℚ) := by
      exact_mod_cast he
    have hadd : 0 ≤ (rateFillRate cfg : ℚ) * (((now : Int) - (lr : Int) : Int) : ℚ) / 1000 :=
      div_nonneg (mul_nonneg (Nat.cast_nonneg _) hep.le) (by norm_num)
    by_cases hgt : t + (rateFillRate cfg : ℚ) * (((now : Int) - (lr : Int) : Int) : ℚ) / 1000 >
        (rateFillRate cfg : ℚ)
    · rw [if_pos hgt]
      exact ⟨Nat.cast_nonneg _, le_refl _⟩
    · rw [if_neg hgt]
      exact ⟨by linarith, not_lt.mp hgt⟩
  · rw [if_neg he]
    exact ⟨h0, h1⟩

lemma doRead_inv (cfg : FairConfig) (read : Read) (job : DeliveryJob) (d : Int)
    (t : ℚ) (lr : Nat) (allowed : Int)
    (hread : ∀ p l n, read p l = .ok n → n ≤ l)
    (hd : 0 ≤ d) (hall : allowed ≤ d)
    (ht0 : 0 ≤ t) (ht1 : t ≤ (rateFillRate cfg : ℚ)) :
    0 ≤ (doRead cfg read job d t lr allowed).2.1 ∧
    0 ≤ (doRead cfg read job d t lr allowed).2.2.1 ∧
    (doRead cfg read job d t lr allowed).2.2.1 ≤ (rateFillRate cfg : ℚ) := by
  unfold doRead
  rcases hr : read job.current allowed.toNat with n | _
  · dsimp only
    by_cases hn : n = 0
    · rw [if_pos hn]
      exact ⟨hd, ht0, ht1⟩
    · rw [if_neg hn]
      have hnle : n ≤ allowed.toNat := hread _ _ _ hr
      refine ⟨?_, ?_, ?_⟩
      · show (0 : Int) ≤ d - (n : Int)
        omega
      · show (0 : ℚ) ≤ if rateActive cfg then max 0 (t - (n : ℚ)) else t
        by_cases hra : rateActive cfg
        · rw [if_pos hra]
          exact le_max_left 0 _
        · rw [if_neg hra]
          exact ht0
      · show (if rateActive cfg then max 0 (t - (n : ℚ)) else t) ≤ (rateFillRate cfg : ℚ)
        by_cases hra : rateActive cfg
        · rw [if_pos hra]
          refine max_le (Nat.cast_nonneg _) ?_
          have hnn : (0 : ℚ) ≤ (n : ℚ) := Nat.cast_nonneg _
          linarith
        · rw [if_neg hra]
          exact ht1
  · exact ⟨hd, ht0, ht1⟩

lemma visitStep_inv (cfg : FairConfig) (now : Nat) (read : Read)
    (bc : Option BroadcastSnap) (job : DeliveryJob) (d : Int) (t : ℚ) (lr : Nat)
    (hread : ∀ p l n, read p l = .ok n → n ≤ l)
    (hd : 0 ≤ d) (ht0 : 0 ≤ t) (ht1 : t ≤ (rateFillRate cfg : ℚ)) :
    0 ≤ (visitStep cfg now read bc job d t lr).2.1 ∧
    0 ≤ (visitStep cfg now read bc job d t lr).2.2.1 ∧
    (visitStep cfg now read bc job d t lr).2.2.1 ≤ (rateFillRate cfg : ℚ) := by
  simp only [visitStep]
  by_cases h1 : job.resEnded
  · rw [if_pos h1]
    exact ⟨hd, ht0, ht1⟩
  · rw [if_neg h1]
    by_cases h2 : remainingBytes job ≤ 0
    · rw [if_pos h2]
      exact ⟨hd, ht0, ht1⟩
    · rw [if_neg h2]
      by_cases h3 : d ≤ 0
      · rw [if_pos h3]
        exact ⟨hd, ht0, ht1⟩
      · rw [if_neg h3]
        by_cases h4 : aheadBlocked cfg now bc job
        · rw [if_pos h4]
          exact ⟨hd, ht0, ht1⟩
        · rw [if_neg h4]
          have htl : 0 ≤ (if rateActive cfg then refillTokens cfg now t lr else (t, lr)).1 ∧
              (if rateActive cfg then refillTokens cfg now t lr else (t, lr)).1 ≤
                (rateFillRate cfg : ℚ) := by
            by_cases hra : rateActive cfg
            · rw [if_pos hra]
              exact refillTokens_inv cfg now t lr ht0 ht1
            · rw [if_neg hra]
              exact ⟨ht0, ht1⟩
          set tk := (if rateActive cfg then refillTokens cfg now t lr else (t, lr)).1 with htk
          set lrf := (if rateActive cfg then refillTokens cfg now t lr else (t, lr)).2 with hlrf
          obtain ⟨htk0, htk1⟩ := htl
          by_cases h5 : rateActive cfg && decide (tk ≤ 0)
          · rw [if_pos h5]
            exact ⟨hd, htk0, htk1⟩
          · rw [if_neg h5]
            set ts := min (remainingBytes job) (min d (cfg.chunkBytes : Int)) with hts
            have htsd : ts ≤ d := (min_le_right _ _).trans (min_le_left _ _)
            by_cases h6 : rateActive cfg && decide (tk < (ts : ℚ))
            · rw [if_pos h6]
              by_cases h7 : max 0 ⌊tk⌋ < 1
              · rw [if_pos h7]
                exact ⟨hd, htk0, htk1⟩
              · rw [if_neg h7]
                have h6' : tk < (ts : ℚ) := by
                  have := (Bool.and_eq_true _ _).mp h6
                  exact of_decide_eq_true this.2
                have hfl : ⌊tk⌋ < ts := Int.floor_lt.mpr h6'
                have hall : max 0 ⌊tk⌋ ≤ d := max_le hd (by omega)
                exact doRead_inv cfg read job d tk lrf _ hread hd hall htk0 htk1
            · rw [if_neg h6]
              exact doRead_inv cfg read job d tk lrf ts hread hd htsd htk0 htk1

lemma visitQueue_inv (cfg : FairConfig) (now : Nat) (read : Read)
    (bc : Option BroadcastSnap) (lat : Nat)
    (hread : ∀ p l n, read p l = .ok n → n ≤ l) :
    ∀ (q : List DeliveryJob) (d : Int) (t : ℚ) (lr : Nat),
      0 ≤ d → 0 ≤ t → t ≤ (rateFillRate cfg : ℚ) →
      ClientInv cfg (visitQueue cfg now read bc lat q d t lr).1 := by
  intro q
  induction q with
  | nil =>
    intro d t lr hd ht0 ht1
    exact ⟨hd, ht0, ht1⟩
  | cons job rest ih =>
    intro d t lr hd ht0 ht1
    have hd1 : 0 ≤ topUpDeficit cfg d := by
      unfold topUpDeficit
      split <;> omega
    have hstep := visitStep_inv cfg now read bc job (topUpDeficit cfg d) t lr hread hd1 ht0 ht1
    simp only [visitQueue]
    rcases hs : visitStep cfg now read bc job (topUpDeficit cfg d) t lr with ⟨st, d', t', lr'⟩
    rw [hs] at hstep
    rcases st with ev | _ | ⟨j, n⟩
    · exact ih d' t' lr' hstep.1 hstep.2.1 hstep.2.2
    · exact ⟨hstep.1, hstep.2.1, hstep.2.2⟩
    · exact ⟨hstep.1, hstep.2.1, hstep.2.2⟩

lemma fairPassClients_inv (cfg : FairConfig) (now : Nat) (read : Read)
    (bc : Option BroadcastSnap) (cs : List (String × FairClient))
    (hread : ∀ p l n, read p l = .ok n → n ≤ l)
    (h : ∀ p ∈ cs, ClientInv cfg p.2) :
    ∀ p ∈ fairPassClients cfg now read bc cs, ClientInv cfg p.2 := by
  intro p hp
  simp only [fairPassClients, List.mem_map] at hp
  obtain ⟨q, hq, rfl⟩ := hp
  exact visitQueue_inv cfg now read bc q.2.lastActiveTs hread q.2.queue q.2.deficit
    q.2.tokens q.2.lastRefill (h q hq).1 (h q hq).2.1 (h q hq).2.2

lemma ensureFairClient_inv (cfg : FairConfig) {cs : List (String × FairClient)}
    {g : String} {now : Nat} (h : ∀ p ∈ cs, ClientInv cfg p.2) :
    ∀ p ∈ ensureFairClient cs g now, ClientInv cfg p.2 := by
  intro p hp
  unfold ensureFairClient at hp
  split at hp
  · exact h p hp
  · rcases List.mem_append.mp hp with h1 | h1
    · exact h p h1
    · rw [List.mem_singleton] at h1
      subst h1
      exact ⟨le_refl 0, le_refl 0, Nat.cast_nonneg _⟩

lemma pushJob_inv (cfg : FairConfig) {cs : List (String × FairClient)}
    {g : String} {j : DeliveryJob} (h : ∀ p ∈ cs, ClientInv cfg p.2) :
    ∀ p ∈ pushJob cs g j, ClientInv cfg p.2 := by
  intro p hp
  simp only [pushJob, List.mem_map] at hp
  obtain ⟨q, hq, rfl⟩ := hp
  by_cases he : q.1 = g
  · rw [if_pos he]
    exact h q hq
  · rw [if_neg he]
    exact h q hq

lemma removeJob_inv (cfg : FairConfig) {cs : List (String × FairClient)}
    {g : String} {j : DeliveryJob} (h : ∀ p ∈ cs, ClientInv cfg p.2) :
    ∀ p ∈ removeJob cs g j, ClientInv cfg p.2 := by
  intro p hp
  simp only [removeJob, List.mem_map] at hp
  obtain ⟨q, hq, rfl⟩ := hp
  by_cases he : q.1 = g
  · rw [if_pos he]
    exact h q hq
  · rw [if_neg he]
    exact h q hq

lemma enqueueJob_inv (cfg : FairConfig) {guid : Option String} {fk : String}
    {start endPos now : Nat} {s : FairState}
    (h : ∀ p ∈ s.clients, ClientInv cfg p.2) :
    ∀ p ∈ (enqueueJob guid fk start endPos now s).2.clients, ClientInv cfg p.2 := by
  simp only [enqueueJob, mkJob]
  rcases hl : lookupClientOpt (ensureFairClient s.clients (guid.getD fk) now) guid
    with _ | fc
  · exact ensureFairClient_inv cfg h
  · exact pushJob_inv cfg (ensureFairClient_inv cfg h)

lemma afterCacheCheck_inv (cfg : FairConfig) {guid : Option String} {fk : String}
    {start endPos now : Nat} {s3 : FairState}
    (h : ∀ p ∈ s3.clients, ClientInv cfg p.2) :
    ∀ p ∈ (afterCacheCheck cfg guid fk start endPos now s3).2.clients,
      ClientInv cfg p.2 := by
  unfold afterCacheCheck
  rcases hb : s3.headCache with _ | buf
  · refine enqueueJob_inv cfg ?_
    split <;> exact h
  · dsimp only
    by_cases he : endPos < buf.length
    · rw [if_pos he]
      exact h
    · rw [if_neg he]
      refine enqueueJob_inv cfg ?_
      split <;> exact h

lemma serveRange_inv (cfg : FairConfig) (fe : Bool) (total : Nat)
    (header : RangeHeaderView) (guid : Option String) (fk : String)
    (rh : Option (List Nat)) (now : Nat) (s : FairState)
    (h : ∀ p ∈ s.clients, ClientInv cfg p.2) :
    ∀ p ∈ (serveRange cfg fe total header guid fk rh now s).2.clients,
      ClientInv cfg p.2 := by
  unfold serveRange
  cases fe with
  | false => exact h
  | true =>
    rcases hp : parseRangeFair total header with _ | _ | _ | ⟨start, endReq⟩
    · exact h
    · exact h
    · exact h
    · cases hen : cfg.enabled with
      | false => exact h
      | true =>
        show ∀ p ∈ (serveFairAdmitted cfg true rh now guid fk start endReq s).2.clients,
          ClientInv cfg p.2
        unfold serveFairAdmitted
        refine afterCacheCheck_inv cfg ?_
        intro p hp'
        rw [maybeEnsureCache_clients] at hp'
        revert hp'
        split <;> exact fun hp' => h p hp'

/-- C6: in every reachable scheduler state, every client's DRR deficit is
non-negative (never negative at all — the bytes charged on a visit never
exceed the current deficit) and its token-bucket level lies between zero
and the configured bucket capacity (one fill-rate's worth of tokens,
`rateFillRate`).  Reachability closes the initial empty state under
`serveRange`, scheduling passes (whose positional reads return at most the
requested byte count), close-handler job removal, and the per-revision
reset. -/
theorem reachable_deficit_tokens_invariant (cfg : FairConfig) (s : FairState)
    (h : Reach cfg s) :
    ∀ p ∈ s.clients, 0 ≤ p.2.deficit ∧ 0 ≤ p.2.tokens ∧
      p.2.tokens ≤ (rateFillRate cfg : ℚ) := by
  induction h with
  | init =>
    intro p hp
    exact absurd hp (List.not_mem_nil p)
  | serve fe total header guid fk rh now _ ih =>
    exact serveRange_inv cfg fe total header guid fk rh now _ ih
  | pass now read bc hread _ ih =>
    exact fairPassClients_inv cfg now read bc _ hread ih
  | closeAbort g j _ ih =>
    exact removeJob_inv cfg ih
  | reset _ ih =>
    exact ih

/-- Witness for `reachable_deficit_tokens_invariant`: the state reached by
one admitted request from client "g" on the initial state; its client
record satisfies the invariant. -/
theorem reachable_deficit_tokens_invariant_witness :
    0 ≤ (⟨[mkJob (some "g") 0 99], 0, 0, 0, 0⟩ : FairClient).deficit ∧
    0 ≤ (⟨[mkJob (some "g") 0 99], 0, 0, 0, 0⟩ : FairClient).tokens ∧
    (⟨[mkJob (some "g") 0 99], 0, 0, 0, 0⟩ : FairClient).tokens ≤
      (rateFillRate cfgPlain : ℚ) :=
  reachable_deficit_tokens_invariant cfgPlain
    (serveRange cfgPlain true 1000 (.matched (some 0) (some 99)) (some "g") "k"
      none 0 initialFairState).2
    (Reach.serve true 1000 (.matched (some 0) (some 99)) (some "g") "k" none 0
      Reach.init)
    ("g", ⟨[mkJob (some "g") 0 99], 0, 0, 0, 0⟩) (by decide)

end Watchparty
